import Mathlib

/-!
Shallow embedding of `wal_utils/wal_utils.c` (history-file parsing and WAL
segment-list construction) and proofs about it.

Modelling conventions:
* C `uint64` / `XLogRecPtr` values are `Nat` together with explicit `% 2^64`
  wherever the C arithmetic can wrap; `uint32` conversions are `% 2^32`.
* The NUL-terminated C input buffer is a `List Char`; the scan of
  `parseTimeLineHistory` stops at `'\x00'` exactly as the C loop does.
* `sscanf(fline, "%u\t%X/%X", ...)` is modelled by `sscanfHistoryLine`:
  skip leading whitespace, read decimal digits, skip whitespace, read hex
  digits, match a literal '/', skip whitespace, read hex digits, counting
  the successfully converted fields.  The exotic strtoul forms (leading
  sign, "0x" prefix) are not modelled; converted values wrap to 32 bits.
* `ereport(ERROR, ...)` aborts the SQL statement, so each C error is a
  value of `ParseError` / `BuildError`.  `llast(NIL)` in the C code
  dereferences a null pointer; that crash is modelled by the distinguished
  outcome `BuildError.crashNullDeref`.
* The `while` loop of the segment enumerator is modelled with explicit
  fuel (`emitEntry`); `none` models a call of the C function that never
  returns.  The rows put into the tuplestore before an error would be
  returned to no one, and every `ereport` in the C function happens before
  the first `tuplestore_putvalues`, which theorem `C9_theorem` makes precise.
-/

deriving instance DecidableEq for Except

namespace WalUtils

/-! ### Character classes and numeric fields (the pieces of `sscanf`) -/

/-- C `isspace` (POSIX locale). -/
def isSpaceC (c : Char) : Bool :=
  decide (c = ' ' ∨ c = '\t' ∨ c = '\n' ∨ c = '\x0b' ∨ c = '\x0c' ∨ c = '\r')

def isDecDigit (c : Char) : Bool := decide ('0' ≤ c ∧ c ≤ '9')

def isHexDigit (c : Char) : Bool :=
  isDecDigit c || decide ('a' ≤ c ∧ c ≤ 'f') || decide ('A' ≤ c ∧ c ≤ 'F')

def decVal (c : Char) : Nat := c.toNat - '0'.toNat

def hexVal (c : Char) : Nat :=
  if isDecDigit c then c.toNat - '0'.toNat
  else if decide ('a' ≤ c ∧ c ≤ 'f') then c.toNat - 'a'.toNat + 10
  else c.toNat - 'A'.toNat + 10

/-- `%u`: at least one decimal digit, value converted to `unsigned int`. -/
def parseUInt (cs : List Char) : Option (Nat × List Char) :=
  if cs.takeWhile isDecDigit = [] then none
  else some ((cs.takeWhile isDecDigit).foldl (fun a c => a * 10 + decVal c) 0 % 2 ^ 32,
             cs.dropWhile isDecDigit)

/-- `%X`: at least one hexadecimal digit, value converted to `unsigned int`. -/
def parseHexU (cs : List Char) : Option (Nat × List Char) :=
  if cs.takeWhile isHexDigit = [] then none
  else some ((cs.takeWhile isHexDigit).foldl (fun a c => a * 16 + hexVal c) 0 % 2 ^ 32,
             cs.dropWhile isHexDigit)

/-- Model of `sscanf(fline, "%u\t%X/%X", &tli, &hi, &lo)`: returns
`(nfields, tli, hi, lo)` where `nfields` is the number of converted fields. -/
def sscanfHistoryLine (cs : List Char) : Nat × Nat × Nat × Nat :=
  match parseUInt (cs.dropWhile isSpaceC) with
  | none => (0, 0, 0, 0)
  | some (tli, r1) =>
    match parseHexU (r1.dropWhile isSpaceC) with
    | none => (1, tli, 0, 0)
    | some (hi, r2) =>
      if r2.head? = some '/' then
        match parseHexU (r2.tail.dropWhile isSpaceC) with
        | none => (2, tli, hi, 0)
        | some (lo, _) => (3, tli, hi, lo)
      else (2, tli, hi, 0)

/-! ### `parseTimeLineHistory` -/

structure TimeLineHistoryEntry where
  tli : Nat
  begin_ : Nat
  end_ : Nat
  deriving DecidableEq, Repr

inductive ParseError where
  | missingTimelineId
  | missingSwitchPoint
  | nonIncreasingTimeline
  deriving DecidableEq, Repr

/-- A line that is empty after stripping leading whitespace, or whose first
non-whitespace character is `#`, is skipped by the C parser. -/
def skipLineB (line : List Char) : Bool :=
  decide (line.dropWhile isSpaceC = []) || decide ((line.dropWhile isSpaceC).head? = some '#')

/-- One iteration of the C parse loop applied to the current line:
`ok none` means the line was skipped, `ok (some e)` appends entry `e`. -/
def processLine (lasttli prevend : Nat) (line : List Char) :
    Except ParseError (Option TimeLineHistoryEntry) :=
  if skipLineB line then .ok none
  else if (sscanfHistoryLine line).1 < 1 then .error .missingTimelineId
  else if (sscanfHistoryLine line).1 ≠ 3 then .error .missingSwitchPoint
  else if (sscanfHistoryLine line).2.1 ≤ lasttli then .error .nonIncreasingTimeline
  else .ok (some ⟨(sscanfHistoryLine line).2.1, prevend,
    (sscanfHistoryLine line).2.2.1 * 2 ^ 32 + (sscanfHistoryLine line).2.2.2⟩)

/-- The line scan of the C parse loop: `acc` holds the (reversed) characters
of the line being read.  A `'\n'` terminates the current line; the NUL that
terminates the C buffer (or the end of the list) makes the current line the
last one (`lastline`), exactly as in the source. -/
def splitLinesAux : List Char → List Char → List (List Char)
  | [], acc => [acc.reverse]
  | c :: cs, acc =>
    if c = '\x00' then [acc.reverse]
    else if c = '\n' then acc.reverse :: splitLinesAux cs []
    else splitLinesAux cs (c :: acc)

/-- The sequence of lines the C parse loop iterates over. -/
def splitLines (buffer : List Char) : List (List Char) := splitLinesAux buffer []

/-- The C parse loop over the lines of the buffer, threading `lasttli` and
`prevend`; entries are produced in file order. -/
def parseLines : List (List Char) → Nat → Nat → Except ParseError (List TimeLineHistoryEntry)
  | [], _, _ => .ok []
  | line :: rest, lasttli, prevend =>
    match processLine lasttli prevend line with
    | .error e => .error e
    | .ok none => parseLines rest lasttli prevend
    | .ok (some entry) => (parseLines rest entry.tli entry.end_).map (entry :: ·)

/-- `parseTimeLineHistory`: `lasttli` starts at `0`,
`prevend` starts at `InvalidXLogRecPtr = 0`. -/
def parseTimeLineHistory (buffer : List Char) : Except ParseError (List TimeLineHistoryEntry) :=
  parseLines (splitLines buffer) 0 0

/-! ### Segment arithmetic and file naming (`xlog_internal.h`) -/

/-- Modulus of `uint64` arithmetic. -/
def word64 : Nat := 2 ^ 64

/-- `XLOG_SEG_SIZE`, the default 16MB segment size the module is built with. -/
def XLogSegSize : Nat := 0x1000000

/-- `XLogSegmentsPerXLogId = 0x100000000 / XLOG_SEG_SIZE`. -/
def XLogSegmentsPerXLogId : Nat := 0x100000000 / XLogSegSize

/-- `XLByteToPrevSeg(xlrp) = (xlrp - 1) / XLogSegSize` in `uint64` arithmetic. -/
def XLByteToPrevSeg (lsn : Nat) : Nat := ((lsn + (word64 - 1)) % word64) / XLogSegSize

/-- The two C statements `p += XLOG_SEG_SIZE; p -= p % XLOG_SEG_SIZE;`
(used both to initialise the cursor from `origin_lsn` and to advance it),
in `uint64` arithmetic. -/
def alignNext (lsn : Nat) : Nat :=
  ((lsn + XLogSegSize) % word64) - ((lsn + XLogSegSize) % word64) % XLogSegSize

def hexDigitChar (n : Nat) : Char :=
  if n = 0 then '0' else if n = 1 then '1' else if n = 2 then '2' else if n = 3 then '3'
  else if n = 4 then '4' else if n = 5 then '5' else if n = 6 then '6' else if n = 7 then '7'
  else if n = 8 then '8' else if n = 9 then '9' else if n = 10 then 'A' else if n = 11 then 'B'
  else if n = 12 then 'C' else if n = 13 then 'D' else if n = 14 then 'E' else 'F'

/-- The `k` base-16 digits of `n`, most significant first. -/
def hexDigits : Nat → Nat → List Char
  | 0, _ => []
  | k + 1, n => hexDigitChar (n / 16 ^ k % 16) :: hexDigits k n

/-- The digits written by `%08X` for a 32-bit value, most significant first. -/
def hex8Chars (n : Nat) : List Char := hexDigits 8 n

/-- `XLogFileName(fname, tli, logSegNo)`:
`snprintf("%08X%08X%08X", tli, logSegNo / XLogSegmentsPerXLogId,
logSegNo % XLogSegmentsPerXLogId)` with the `uint32` casts. -/
def XLogFileName (tli segno : Nat) : String :=
  ⟨hex8Chars (tli % 2 ^ 32) ++ hex8Chars (segno / XLogSegmentsPerXLogId % 2 ^ 32) ++
   hex8Chars (segno % XLogSegmentsPerXLogId % 2 ^ 32)⟩

/-- Modelled from the spec: `format_identifier(timeline, seg_seq)` is the
"fixed-width (8 hex digits each) concatenation of `timeline`, high 32 bits
of `seg_seq`, low 32 bits of `seg_seq`" (spec section 4.2).  Stated only to
compare the specified naming with the `XLogFileName` naming the code uses. -/
def specFormatIdentifier (tli seq : Nat) : String :=
  ⟨hex8Chars (tli % 2 ^ 32) ++ hex8Chars (seq / 2 ^ 32 % 2 ^ 32) ++ hex8Chars (seq % 2 ^ 32)⟩

/-- The spec's `segment_sequence(pos, seg_size) = floor(pos / seg_size)`
at the fixed segment size. -/
def specSegmentSequence (pos : Nat) : Nat := pos / XLogSegSize

/-! ### `build_wal_segment_list` -/

inductive BuildError where
  | originNewerThanTarget
  | originTliNewerThanTarget
  | parseFail (e : ParseError)
  /-- `llast(entries)` with `entries = NIL`: the C code dereferences a null
  pointer.  Not an `ereport` error: the backend crashes. -/
  | crashNullDeref
  | historyTliNotOlderThanTarget
  | historyEndNewerThanTarget
  | originNotDirectParent
  deriving DecidableEq, Repr

/-- The sanity checks of `build_wal_segment_list` (source lines 271-341), up to
and including appending the synthetic target entry.  On success returns the
extended entry list whose last element is
`{tli = target_tli, begin = matched.end, end = target_lsn}` where `matched` is
the first history entry whose span contains the origin. -/
def validateAndExtend (origin_tli origin_lsn target_tli target_lsn : Nat)
    (buffer : List Char) : Except BuildError (List TimeLineHistoryEntry) :=
  if origin_lsn > target_lsn then .error .originNewerThanTarget
  else if origin_tli > target_tli then .error .originTliNewerThanTarget
  else
    match parseTimeLineHistory buffer with
    | .error e => .error (.parseFail e)
    | .ok entries =>
      match entries.getLast? with
      | none => .error .crashNullDeref
      | some last =>
        if last.tli ≥ target_tli then .error .historyTliNotOlderThanTarget
        else if last.end_ > target_lsn then .error .historyEndNewerThanTarget
        else
          match entries.find? (fun e =>
              decide (e.begin_ ≤ origin_lsn) && decide (e.end_ ≥ origin_lsn) &&
              decide (e.tli = origin_tli)) with
          | none => .error .originNotDirectParent
          | some matched =>
            .ok (entries ++ [⟨target_tli, matched.end_, target_lsn⟩])

/-- The inner `while` loop of the enumerator for one history entry: while
`begin <= cursor < end`, emit `(tli, XLByteToPrevSeg cursor)` and advance the
cursor by one segment.  `fuel` bounds the iterations; `none` models the C
loop not terminating. -/
def emitEntry : Nat → TimeLineHistoryEntry → Nat → Option (List (Nat × Nat) × Nat)
  | 0, _, _ => none
  | fuel + 1, e, cursor =>
    if e.begin_ ≤ cursor ∧ cursor < e.end_ then
      match emitEntry fuel e (alignNext cursor) with
      | none => none
      | some (l, c') => some ((e.tli, XLByteToPrevSeg cursor) :: l, c')
    else
      some ([], cursor)

/-- The `foreach` over the (extended) entry list, threading the cursor. -/
def emitAll (fuel : Nat) : List TimeLineHistoryEntry → Nat → Option (List (Nat × Nat) × Nat)
  | [], cursor => some ([], cursor)
  | e :: es, cursor =>
    match emitEntry fuel e cursor with
    | none => none
    | some (l, c') =>
      match emitAll fuel es c' with
      | none => none
      | some (l₂, c'') => some (l ++ l₂, c'')

/-- `build_wal_segment_list`, returning the emitted `(timeline, segment-number)`
pairs in tuplestore order together with the error raised, if any.  `none`
models a call that never returns; on an error the first component is the list
of rows already in the tuplestore when the error fired. -/
def buildWalSegmentList (fuel origin_tli origin_lsn target_tli target_lsn : Nat)
    (buffer : List Char) : Option (List (Nat × Nat) × Option BuildError) :=
  match validateAndExtend origin_tli origin_lsn target_tli target_lsn buffer with
  | .error e => some ([], some e)
  | .ok ext =>
    match emitAll fuel ext (alignNext origin_lsn) with
    | none => none
    | some (l, _) =>
      some (l ++ [(target_tli, XLByteToPrevSeg target_lsn)], none)

/-- The segment file names put into the tuplestore, in order. -/
def buildWalSegmentListNames (fuel origin_tli origin_lsn target_tli target_lsn : Nat)
    (buffer : List Char) : Option (List String × Option BuildError) :=
  match buildWalSegmentList fuel origin_tli origin_lsn target_tli target_lsn buffer with
  | none => none
  | some (l, err) => some (l.map (fun p => XLogFileName p.1 p.2), err)

/-- Property from spec section 8: segment-sequence numbers re-derived per
timeline are non-decreasing in emission order. -/
def perTimelineMonotone (l : List (Nat × Nat)) : Prop :=
  ∀ t, List.Chain' (· ≤ ·) ((l.filter (fun p => p.1 == t)).map Prod.snd)

/-! ### Concrete history texts used in the theorems -/

/-- The history text of spec Example 2. -/
def ex2Text : List Char := ("1\t0/3000000\n2\t0/5000000\n").data

/-- A single-entry history ending at `0/3000000`. -/
def oneEntryText : List Char := ("1\t0/3000000\n").data

/-- A single-entry history ending at `1/0` (LSN `2^32`). -/
def highEntryText : List Char := ("1\t1/0\n").data

/-! ### Claim C9 -/

/-- Claim C9: whenever `build_wal_segment_list` fails with an error (including
the modelled crash), the tuplestore is still empty — every parse/validation
error fires before the first emission, so there are no partial results. -/
theorem C9_theorem (fuel origin_tli origin_lsn target_tli target_lsn : Nat)
    (buffer : List Char) (out : List (Nat × Nat)) (e : BuildError)
    (h : buildWalSegmentList fuel origin_tli origin_lsn target_tli target_lsn buffer =
      some (out, some e)) : out = [] := by
  unfold buildWalSegmentList at h
  cases hv : validateAndExtend origin_tli origin_lsn target_tli target_lsn buffer with
  | error e' =>
    simp only [hv] at h
    simp at h
    exact h.1
  | ok ext =>
    simp only [hv] at h
    cases he : emitAll fuel ext (alignNext origin_lsn) with
    | none => simp only [he] at h; exact Option.noConfusion h
    | some r =>
      rcases r with ⟨l, c⟩
      simp only [he] at h
      simp at h

theorem C9_witness :
    buildWalSegmentList 1 2 5 1 3 [] = some ([], some BuildError.originNewerThanTarget) ∧
    ([] : List (Nat × Nat)) = [] :=
  ⟨by decide, C9_theorem 1 2 5 1 3 [] [] BuildError.originNewerThanTarget (by decide)⟩

/-! ### Claim C3 -/

/-- Claim C3 (divergence): on a history whose parse yields no entries and
origin/target passing the first two sanity checks, the C code reaches
`llast(entries)` with `entries = NIL` and dereferences a null pointer — it
crashes instead of failing with a validation error. -/
theorem C3_theorem (fuel origin_tli origin_lsn target_tli target_lsn : Nat) (buffer : List Char)
    (h1 : origin_lsn ≤ target_lsn) (h2 : origin_tli ≤ target_tli)
    (h3 : parseTimeLineHistory buffer = .ok []) :
    buildWalSegmentList fuel origin_tli origin_lsn target_tli target_lsn buffer =
      some ([], some BuildError.crashNullDeref) := by
  unfold buildWalSegmentList validateAndExtend
  rw [if_neg (by omega), if_neg (by omega), h3]
  rfl

theorem C3_witness :
    buildWalSegmentList 8 1 0 2 0x1000000 [] = some ([], some BuildError.crashNullDeref) :=
  C3_theorem 8 1 0 2 0x1000000 [] (by decide) (by decide) (by decide)

/-! ### Claim C4 -/

/-- Claim C4 (counterexample): the call of spec Example 2,
`build_wal_segment_list(1, 0, 2, 0x5000000, "1\t0/3000000\n2\t0/5000000\n")`,
does not succeed: the last history entry has timeline 2, which is not
strictly older than the target timeline 2, so the call errors out. -/
theorem C4_counterexample :
    buildWalSegmentList 32 1 0 2 0x5000000 ex2Text =
      some ([], some BuildError.historyTliNotOlderThanTarget) := by decide

/-- Claim C4 (amended): the text parses to two entries; the Example-2 call
with target timeline 2 fails with `HistoryTimelineNotOlderThanTarget`; with
target timeline 3 the call succeeds and emits timeline-1 segments 0 and 1,
timeline-2 segments 2 and 3, and the final forced identifier `(3, 4)` for
the target — the previous-segment convention, not `segment_sequence(0x5000000) = 5`. -/
theorem C4_theorem :
    parseTimeLineHistory ex2Text =
      .ok [⟨1, 0, 0x3000000⟩, ⟨2, 0x3000000, 0x5000000⟩] ∧
    buildWalSegmentList 32 1 0 2 0x5000000 ex2Text =
      some ([], some BuildError.historyTliNotOlderThanTarget) ∧
    buildWalSegmentListNames 32 1 0 3 0x5000000 ex2Text =
      some (["000000010000000000000000", "000000010000000000000001",
             "000000020000000000000002", "000000020000000000000003",
             "000000030000000000000004"], none) := by
  refine ⟨by decide, by decide, by decide⟩

/-! ### Claim C2 -/

/-- Claim C2 (counterexample): with `target_lsn = 0x4000000` exactly on a
segment boundary, the final identifier the code emits is
`XLogFileName(2, (0x4000000 - 1) / seg_size) = "…03"`, not the spec's
`format_identifier(2, segment_sequence(0x4000000)) = "…04"`. -/
theorem C2_counterexample :
    buildWalSegmentListNames 32 1 0x1000000 2 0x4000000 oneEntryText =
      some (["000000010000000000000001", "000000020000000000000002",
             "000000020000000000000003"], none) ∧
    specFormatIdentifier 2 (specSegmentSequence 0x4000000) = "000000020000000000000004" ∧
    ("000000020000000000000003" : String) ≠ "000000020000000000000004" := by
  refine ⟨by decide, by decide, by decide⟩

/-- Claim C2 (amended): after the entry loop exactly one final pair is
unconditionally appended, and it is
`(target_tli, XLByteToPrevSeg target_lsn)` — the segment containing the byte
before `target_lsn` (`(target_lsn - 1) / seg_size` in 64-bit arithmetic),
which equals `floor(target_lsn / seg_size)` only off segment boundaries. -/
theorem C2_theorem (fuel origin_tli origin_lsn target_tli target_lsn : Nat)
    (buffer : List Char) (out : List (Nat × Nat))
    (h : buildWalSegmentList fuel origin_tli origin_lsn target_tli target_lsn buffer =
      some (out, none)) :
    out.getLast? = some (target_tli, XLByteToPrevSeg target_lsn) ∧
    ∃ l, out = l ++ [(target_tli, XLByteToPrevSeg target_lsn)] := by
  unfold buildWalSegmentList at h
  cases hv : validateAndExtend origin_tli origin_lsn target_tli target_lsn buffer with
  | error e =>
    simp only [hv] at h
    simp at h
  | ok ext =>
    simp only [hv] at h
    cases he : emitAll fuel ext (alignNext origin_lsn) with
    | none => simp only [he] at h; exact Option.noConfusion h
    | some r =>
      rcases r with ⟨l, c⟩
      simp only [he] at h
      simp at h
      rw [← h]
      exact ⟨by simp, ⟨l, rfl⟩⟩

theorem C2_witness :
    ([(1, 1), (2, 2), (2, 3)] : List (Nat × Nat)).getLast? =
      some (2, XLByteToPrevSeg 0x4000000) ∧
    ∃ l, ([(1, 1), (2, 2), (2, 3)] : List (Nat × Nat)) =
      l ++ [(2, XLByteToPrevSeg 0x4000000)] :=
  C2_theorem 32 1 0x1000000 2 0x4000000 oneEntryText [(1, 1), (2, 2), (2, 3)] (by decide)

/-! ### Claim C10 -/

theorem splitLinesAux_append_newline : ∀ cs acc,
    splitLinesAux (cs ++ ['\n']) acc = splitLinesAux cs acc ∨
    splitLinesAux (cs ++ ['\n']) acc = splitLinesAux cs acc ++ [[]] := by
  intro cs
  induction cs with
  | nil =>
    intro acc
    right
    simp [splitLinesAux]
  | cons c cs ih =>
    intro acc
    by_cases h0 : c = '\x00'
    · left
      simp [splitLinesAux, h0]
    · by_cases hn : c = '\n'
      · rcases ih [] with h | h
        · left
          simp [splitLinesAux, h0, hn, h]
        · right
          simp [splitLinesAux, h0, hn, h]
      · rcases ih (c :: acc) with h | h
        · left
          simp [splitLinesAux, h0, hn, h]
        · right
          simp [splitLinesAux, h0, hn, h]

theorem parseLines_append_blank : ∀ ls lasttli prevend,
    parseLines (ls ++ [[]]) lasttli prevend = parseLines ls lasttli prevend := by
  intro ls
  induction ls with
  | nil => intro lasttli prevend; rfl
  | cons line ls ih =>
    intro lasttli prevend
    show parseLines (line :: (ls ++ [[]])) lasttli prevend = _
    rw [parseLines, parseLines]
    cases hp : processLine lasttli prevend line with
    | error e => rfl
    | ok o =>
      cases o with
      | none => exact ih lasttli prevend
      | some entry => dsimp only; rw [ih entry.tli entry.end_]

/-- Claim C10: parsing is insensitive to one trailing newline — the final
unterminated line is processed like any other line, and the extra empty line
introduced by the terminator is skipped as blank. -/
theorem C10_theorem (buffer : List Char) :
    parseTimeLineHistory (buffer ++ ['\n']) = parseTimeLineHistory buffer := by
  unfold parseTimeLineHistory splitLines
  rcases splitLinesAux_append_newline buffer [] with h | h
  · rw [h]
  · rw [h, parseLines_append_blank]

/-! ### Parse invariants (claim C6) -/

theorem parseUInt_bound (cs : List Char) (v : Nat) (r : List Char)
    (h : parseUInt cs = some (v, r)) : v < 2 ^ 32 := by
  unfold parseUInt at h
  split at h
  · exact Option.noConfusion h
  · simp at h
    omega

theorem parseHexU_bound (cs : List Char) (v : Nat) (r : List Char)
    (h : parseHexU cs = some (v, r)) : v < 2 ^ 32 := by
  unfold parseHexU at h
  split at h
  · exact Option.noConfusion h
  · simp at h
    omega

theorem sscanfHistoryLine_bounds (cs : List Char) :
    (sscanfHistoryLine cs).2.1 < 2 ^ 32 ∧ (sscanfHistoryLine cs).2.2.1 < 2 ^ 32 ∧
    (sscanfHistoryLine cs).2.2.2 < 2 ^ 32 := by
  unfold sscanfHistoryLine
  split
  · norm_num
  · rename_i tli r1 h1
    have hb1 := parseUInt_bound _ _ _ h1
    split
    · simpa using hb1
    · rename_i hi r2 h2
      have hb2 := parseHexU_bound _ _ _ h2
      split
      · split
        · simpa using ⟨hb1, hb2⟩
        · rename_i lo r4 h3
          have hb3 := parseHexU_bound _ _ _ h3
          simpa using ⟨hb1, hb2, hb3⟩
      · simpa using ⟨hb1, hb2⟩

theorem processLine_ok_some (lasttli prevend : Nat) (line : List Char)
    (e : TimeLineHistoryEntry) (h : processLine lasttli prevend line = .ok (some e)) :
    lasttli < e.tli ∧ e.tli < 2 ^ 32 ∧ e.begin_ = prevend ∧ e.end_ < word64 := by
  unfold processLine at h
  split at h
  · simp at h
  · split at h
    · exact Except.noConfusion h
    · split at h
      · exact Except.noConfusion h
      · split at h
        · exact Except.noConfusion h
        · rename_i hnlt
          simp at h
          obtain ⟨hb1, hb2, hb3⟩ := sscanfHistoryLine_bounds line
          subst h
          refine ⟨?_, hb1, rfl, ?_⟩
          · show lasttli < (sscanfHistoryLine line).2.1
            omega
          · show (sscanfHistoryLine line).2.2.1 * 2 ^ 32 + (sscanfHistoryLine line).2.2.2 < word64
            unfold word64
            omega

theorem parseLines_invariant : ∀ ls lasttli prevend entries,
    parseLines ls lasttli prevend = .ok entries →
    (∀ e ∈ entries, lasttli < e.tli ∧ e.tli < 2 ^ 32) ∧
    List.Chain' (fun a b => a.tli < b.tli) entries ∧
    (∀ e, entries.head? = some e → e.begin_ = prevend) ∧
    List.Chain' (fun a b => b.begin_ = a.end_) entries ∧
    (∀ e ∈ entries, e.end_ < word64) := by
  intro ls
  induction ls with
  | nil =>
    intro lasttli prevend entries h
    simp [parseLines] at h
    subst h
    simp
  | cons line ls ih =>
    intro lasttli prevend entries h
    rw [parseLines] at h
    cases hp : processLine lasttli prevend line with
    | error e => rw [hp] at h; exact Except.noConfusion h
    | ok o =>
      rw [hp] at h
      cases o with
      | none => exact ih lasttli prevend entries h
      | some entry =>
        dsimp only at h
        cases hr : parseLines ls entry.tli entry.end_ with
        | error e => rw [hr] at h; exact Except.noConfusion h
        | ok tl =>
          rw [hr] at h
          simp [Except.map] at h
          subst h
          obtain ⟨hlt, htb, hbeg, hend⟩ := processLine_ok_some lasttli prevend line entry hp
          obtain ⟨ih1, ih2, ih3, ih4, ih5⟩ := ih entry.tli entry.end_ tl hr
          refine ⟨?_, ?_, ?_, ?_, ?_⟩
          · intro e he
            rcases List.mem_cons.mp he with rfl | he'
            · exact ⟨hlt, htb⟩
            · exact ⟨Nat.lt_trans hlt (ih1 e he').1, (ih1 e he').2⟩
          · rw [List.chain'_cons']
            exact ⟨fun b hb => (ih1 b (List.mem_of_mem_head? hb)).1, ih2⟩
          · intro e he
            simp at he
            rw [← he, hbeg]
          · rw [List.chain'_cons']
            exact ⟨fun b hb => ih3 b hb, ih4⟩
          · intro e he
            rcases List.mem_cons.mp he with rfl | he'
            · exact hend
            · exact ih5 e he'

/-- Claim C6: a successful parse yields strictly increasing timeline IDs,
first `begin` equal to `INVALID` (zero), each later `begin` equal to the
previous entry's `end`, and each `end` assembled as `hi * 2^32 + lo`
(equivalently `(hi << 32) | lo`) from two 32-bit groups. -/
theorem C6_theorem (buffer : List Char) (entries : List TimeLineHistoryEntry)
    (h : parseTimeLineHistory buffer = .ok entries) :
    List.Chain' (fun a b => a.tli < b.tli) entries ∧
    (∀ e, entries.head? = some e → e.begin_ = 0) ∧
    List.Chain' (fun a b => b.begin_ = a.end_) entries ∧
    (∀ e ∈ entries, ∃ hi lo, hi < 2 ^ 32 ∧ lo < 2 ^ 32 ∧ e.end_ = hi * 2 ^ 32 + lo) := by
  obtain ⟨h1, h2, h3, h4, h5⟩ := parseLines_invariant (splitLines buffer) 0 0 entries h
  refine ⟨h2, h3, h4, fun e he => ?_⟩
  have := h5 e he
  unfold word64 at this
  exact ⟨e.end_ / 2 ^ 32, e.end_ % 2 ^ 32, by omega, by omega, by omega⟩

theorem C6_witness :
    List.Chain' (fun a b => a.tli < b.tli)
      [(⟨1, 0, 0x3000000⟩ : TimeLineHistoryEntry), ⟨2, 0x3000000, 0x5000000⟩] ∧
    (∀ e, ([(⟨1, 0, 0x3000000⟩ : TimeLineHistoryEntry), ⟨2, 0x3000000, 0x5000000⟩].head? =
      some e) → e.begin_ = 0) ∧
    List.Chain' (fun a b => b.begin_ = a.end_)
      [(⟨1, 0, 0x3000000⟩ : TimeLineHistoryEntry), ⟨2, 0x3000000, 0x5000000⟩] ∧
    (∀ e ∈ [(⟨1, 0, 0x3000000⟩ : TimeLineHistoryEntry), ⟨2, 0x3000000, 0x5000000⟩],
      ∃ hi lo, hi < 2 ^ 32 ∧ lo < 2 ^ 32 ∧ e.end_ = hi * 2 ^ 32 + lo) :=
  C6_theorem ex2Text [⟨1, 0, 0x3000000⟩, ⟨2, 0x3000000, 0x5000000⟩] (by decide)

/-! ### Claim C7 -/

theorem sscanfHistoryLine_first (cs : List Char) :
    (parseUInt (cs.dropWhile isSpaceC) = none ∧ (sscanfHistoryLine cs).1 = 0) ∨
    (parseUInt (cs.dropWhile isSpaceC) ≠ none ∧ 1 ≤ (sscanfHistoryLine cs).1) := by
  unfold sscanfHistoryLine
  split
  · rename_i h1
    left
    exact ⟨h1, rfl⟩
  · rename_i tli r1 h1
    right
    refine ⟨by simp [h1], ?_⟩
    split
    · simp
    · split
      · split <;> simp
      · simp

/-- Claim C7: for a data line (not blank, not a comment), the parser fails
with `MissingTimelineId` exactly when the first field does not convert as an
unsigned integer, otherwise with `MissingSwitchPoint` exactly when the three
fields do not all convert, otherwise with `NonIncreasingTimeline` exactly
when the converted timeline is not strictly above the previous one; the
previous value starts at 0, so a first data line with timeline 0 fails and
`"2\t0/0\n1\t0/0\n"` fails on its second line. -/
theorem C7_theorem :
    (∀ lasttli prevend line, skipLineB line = false →
      ((processLine lasttli prevend line = .error .missingTimelineId ↔
        parseUInt (line.dropWhile isSpaceC) = none) ∧
       (processLine lasttli prevend line = .error .missingSwitchPoint ↔
        parseUInt (line.dropWhile isSpaceC) ≠ none ∧ (sscanfHistoryLine line).1 ≠ 3) ∧
       (processLine lasttli prevend line = .error .nonIncreasingTimeline ↔
        (sscanfHistoryLine line).1 = 3 ∧ (sscanfHistoryLine line).2.1 ≤ lasttli))) ∧
    parseTimeLineHistory (("0\t0/0").data) = .error .nonIncreasingTimeline ∧
    parseTimeLineHistory (("2\t0/0\n1\t0/0\n").data) = .error .nonIncreasingTimeline := by
  refine ⟨?_, by decide, by decide⟩
  intro lasttli prevend line hskip
  have hcases := sscanfHistoryLine_first line
  unfold processLine
  rw [if_neg (by simp [hskip])]
  by_cases h1 : (sscanfHistoryLine line).1 < 1
  · rw [if_pos h1]
    rcases hcases with ⟨hn, hz⟩ | ⟨hn, hge⟩
    · refine ⟨by simp [hn], by simp [hn], by simp [hz]⟩
    · omega
  · rw [if_neg h1]
    rcases hcases with ⟨hn, hz⟩ | ⟨hn, hge⟩
    · exact absurd (by omega) h1
    · by_cases h2 : (sscanfHistoryLine line).1 ≠ 3
      · rw [if_pos h2]
        exact ⟨by simp [hn], by simp [hn, h2], by simp [h2]⟩
      · rw [if_neg h2]
        push_neg at h2
        by_cases h3 : (sscanfHistoryLine line).2.1 ≤ lasttli
        · rw [if_pos h3]
          exact ⟨by simp [hn], by simp [h2], by simp [h2, h3]⟩
        · rw [if_neg h3]
          exact ⟨by simp [hn], by simp [h2], by simp [h3]⟩

theorem C7_witness :
    processLine 0 0 (("abc\t0/0").data) = .error .missingTimelineId ∧
    processLine 0 0 (("1").data) = .error .missingSwitchPoint ∧
    processLine 7 0 (("5\t0/0").data) = .error .nonIncreasingTimeline :=
  ⟨((C7_theorem.1 0 0 (("abc\t0/0").data) (by decide)).1).mpr (by decide),
   ((C7_theorem.1 0 0 (("1").data) (by decide)).2.1).mpr (by decide),
   ((C7_theorem.1 7 0 (("5\t0/0").data) (by decide)).2.2).mpr (by decide)⟩

/-! ### Claim C1 -/

/-- The first boundary after `origin_lsn` names, under the previous-segment
convention, exactly the origin's own segment `floor(origin_lsn / seg_size)` —
also across the 64-bit wrap. -/
theorem XLByteToPrevSeg_alignNext (lsn : Nat) (h : lsn < word64) :
    XLByteToPrevSeg (alignNext lsn) = lsn / XLogSegSize := by
  unfold XLByteToPrevSeg alignNext XLogSegSize word64
  unfold word64 at h
  omega

theorem emitAll_find_head : ∀ (es : List TimeLineHistoryEntry) (fuel c : Nat)
    (l : List (Nat × Nat)) (c' : Nat) (e : TimeLineHistoryEntry),
    emitAll fuel es c = some (l, c') →
    es.find? (fun x => decide (x.begin_ ≤ c) && decide (c < x.end_)) = some e →
    l.head? = some (e.tli, XLByteToPrevSeg c) := by
  intro es
  induction es with
  | nil => intro fuel c l c' e h hf; simp at hf
  | cons e₀ es ih =>
    intro fuel c l c' e h hf
    by_cases hp : (decide (e₀.begin_ ≤ c) && decide (c < e₀.end_)) = true
    · rw [@List.find?_cons_of_pos _
        (fun x => decide (x.begin_ ≤ c) && decide (c < x.end_)) e₀ es hp] at hf
      injection hf with hf
      subst hf
      rw [emitAll] at h
      cases fuel with
      | zero => rw [emitEntry] at h; exact Option.noConfusion h
      | succ f =>
        rw [emitEntry, if_pos (by simpa using hp)] at h
        cases hrec : emitEntry f e₀ (alignNext c) with
        | none => rw [hrec] at h; exact Option.noConfusion h
        | some r =>
          rcases r with ⟨l₀, c₀⟩
          rw [hrec] at h
          dsimp only at h
          cases hall : emitAll (f + 1) es c₀ with
          | none => rw [hall] at h; exact Option.noConfusion h
          | some r₂ =>
            rcases r₂ with ⟨l₂, c₂⟩
            rw [hall] at h
            simp at h
            rw [← h.1]
            rfl
    · rw [@List.find?_cons_of_neg _
        (fun x => decide (x.begin_ ≤ c) && decide (c < x.end_)) e₀ es hp] at hf
      rw [emitAll] at h
      cases fuel with
      | zero => rw [emitEntry] at h; exact Option.noConfusion h
      | succ f =>
        rw [emitEntry, if_neg (by simpa using hp)] at h
        dsimp only at h
        cases hall : emitAll (f + 1) es c with
        | none => rw [hall] at h; exact Option.noConfusion h
        | some r₂ =>
          rcases r₂ with ⟨l₂, c₂⟩
          rw [hall] at h
          simp at h
          rw [← h.1]
          simpa using ih (f + 1) c l₂ c₂ e hall hf

/-- Claim C1 (counterexample): in a successful run with origin `(1, 0)` the
returned sequence contains (as its first element) exactly the identifier of
the origin's own segment, `format_identifier(1, floor(0 / seg_size))`. -/
theorem C1_counterexample :
    buildWalSegmentListNames 32 1 0 3 0x5000000 ex2Text =
      some (["000000010000000000000000", "000000010000000000000001",
             "000000020000000000000002", "000000020000000000000003",
             "000000030000000000000004"], none) ∧
    specFormatIdentifier 1 (specSegmentSequence 0) ∈
      ["000000010000000000000000", "000000010000000000000001",
       "000000020000000000000002", "000000020000000000000003",
       "000000030000000000000004"] := by
  refine ⟨by decide, by decide⟩

/-- Claim C1 (amended): enumeration does start the cursor at the first
segment boundary strictly after `origin_lsn`, but each boundary emits the
segment that ends there, so whenever the first entry of the extended list
whose span contains that boundary carries the origin timeline, the first
emitted pair is precisely the origin's own segment
`(origin_tli, floor(origin_lsn / seg_size))` — it is emitted, not skipped. -/
theorem C1_theorem (fuel origin_tli origin_lsn target_tli target_lsn : Nat)
    (buffer : List Char) (ext : List TimeLineHistoryEntry) (e : TimeLineHistoryEntry)
    (out : List (Nat × Nat))
    (hlsn : origin_lsn < word64)
    (hv : validateAndExtend origin_tli origin_lsn target_tli target_lsn buffer = .ok ext)
    (hf : ext.find? (fun x => decide (x.begin_ ≤ alignNext origin_lsn) &&
          decide (alignNext origin_lsn < x.end_)) = some e)
    (ht : e.tli = origin_tli)
    (h : buildWalSegmentList fuel origin_tli origin_lsn target_tli target_lsn buffer =
      some (out, none)) :
    out.head? = some (origin_tli, origin_lsn / XLogSegSize) := by
  unfold buildWalSegmentList at h
  simp only [hv] at h
  cases he : emitAll fuel ext (alignNext origin_lsn) with
  | none => simp only [he] at h; exact Option.noConfusion h
  | some r =>
    rcases r with ⟨l, c⟩
    simp only [he] at h
    simp at h
    have hh := emitAll_find_head ext fuel (alignNext origin_lsn) l c e he hf
    rw [XLByteToPrevSeg_alignNext _ hlsn, ht] at hh
    rw [← h, List.head?_append, hh]
    rfl

theorem C1_witness :
    ([(1, 0), (1, 1), (2, 2), (2, 3), (3, 4)] : List (Nat × Nat)).head? =
      some (1, 0 / XLogSegSize) :=
  C1_theorem 32 1 0 3 0x5000000 ex2Text
    [⟨1, 0, 0x3000000⟩, ⟨2, 0x3000000, 0x5000000⟩, ⟨3, 0x3000000, 0x5000000⟩]
    ⟨1, 0, 0x3000000⟩ [(1, 0), (1, 1), (2, 2), (2, 3), (3, 4)]
    (by decide) (by decide) (by decide) (by decide) (by decide)

/-! ### Claim C8: segment-name structure and ordering -/

theorem hexDigitChar_lt_iff : ∀ a, a < 16 → ∀ b, b < 16 →
    (hexDigitChar a < hexDigitChar b ↔ a < b) := by decide

theorem hexDigits_length : ∀ k n, (hexDigits k n).length = k := by
  intro k
  induction k with
  | zero => intro n; rfl
  | succ k ih => intro n; simp [hexDigits, ih]

theorem hexDigits_mod : ∀ k n, hexDigits k (n % 16 ^ k) = hexDigits k n := by
  intro k
  induction k with
  | zero => intro n; rfl
  | succ k ih =>
    intro n
    rw [hexDigits, hexDigits]
    have h1 : n % 16 ^ (k + 1) / 16 ^ k % 16 = n / 16 ^ k % 16 := by
      rw [Nat.pow_succ, Nat.mod_mul_right_div_self]
      exact Nat.mod_mod_of_dvd _ dvd_rfl
    have h2 : hexDigits k (n % 16 ^ (k + 1)) = hexDigits k n := by
      rw [← ih (n % 16 ^ (k + 1)), ← ih n]
      congr 1
      exact Nat.mod_mod_of_dvd n (pow_dvd_pow 16 (Nat.le_succ k))
    rw [h1, h2]

theorem hexDigits_lt : ∀ k a b, a < b → b < 16 ^ k →
    List.Lex (· < ·) (hexDigits k a) (hexDigits k b) := by
  intro k
  induction k with
  | zero => intro a b hab hb; simp at hb; omega
  | succ k ih =>
    intro a b hab hb
    rw [hexDigits, hexDigits]
    have hpos : 0 < 16 ^ k := Nat.pos_pow_of_pos k (by norm_num)
    rcases Nat.lt_or_ge (a / 16 ^ k) (b / 16 ^ k) with hd | hd
    · have hb16 : b / 16 ^ k < 16 := by
        rw [Nat.div_lt_iff_lt_mul hpos]
        calc b < 16 ^ (k + 1) := hb
        _ = 16 ^ k * 16 := by rw [Nat.pow_succ]
        _ = 16 * 16 ^ k := Nat.mul_comm _ _
      have ha16 : a / 16 ^ k < 16 :=
        Nat.lt_of_le_of_lt (Nat.div_le_div_right (Nat.le_of_lt hab)) hb16
      apply List.Lex.rel
      rw [Nat.mod_eq_of_lt ha16, Nat.mod_eq_of_lt hb16]
      exact (hexDigitChar_lt_iff _ ha16 _ hb16).mpr hd
    · have hd2 : a / 16 ^ k = b / 16 ^ k :=
        Nat.le_antisymm (Nat.div_le_div_right (Nat.le_of_lt hab)) hd
      have e1 := Nat.div_add_mod a (16 ^ k)
      have e2 := Nat.div_add_mod b (16 ^ k)
      rw [hd2] at e1
      have h3 : a % 16 ^ k < b % 16 ^ k := by
        have : 16 ^ k * (b / 16 ^ k) + a % 16 ^ k < 16 ^ k * (b / 16 ^ k) + b % 16 ^ k := by
          rw [e1, e2]; exact hab
        exact Nat.lt_of_add_lt_add_left this
      rw [hd2]
      apply List.Lex.cons
      rw [← hexDigits_mod k a, ← hexDigits_mod k b]
      exact ih _ _ h3 (Nat.mod_lt _ hpos)

theorem lexChars_append_right : ∀ (l r₁ r₂ : List Char), List.Lex (· < ·) r₁ r₂ →
    List.Lex (· < ·) (l ++ r₁) (l ++ r₂) := by
  intro l
  induction l with
  | nil => intro r₁ r₂ h; exact h
  | cons c cs ih =>
    intro r₁ r₂ h
    exact List.Lex.cons (ih r₁ r₂ h)

theorem lexChars_append_left : ∀ {l₁ l₂ : List Char} (r₁ r₂ : List Char),
    List.Lex (· < ·) l₁ l₂ → l₁.length = l₂.length →
    List.Lex (· < ·) (l₁ ++ r₁) (l₂ ++ r₂) := by
  intro l₁ l₂ r₁ r₂ h
  induction h with
  | nil => intro hlen; simp at hlen
  | cons h ih => intro hlen; exact List.Lex.cons (ih (by simpa using hlen))
  | rel h => intro _; exact List.Lex.rel h

theorem stringMk_lt {l₁ l₂ : List Char} (h : List.Lex (· < ·) l₁ l₂) :
    String.mk l₁ < String.mk l₂ := by
  rw [String.lt_iff_toList_lt]
  exact h

/-- The code's naming is strictly monotone from `(timeline, segment-number)`
lexicographic order to string order. -/
theorem XLogFileName_lt_of_lex (t1 s1 t2 s2 : Nat)
    (ht1 : t1 < 2 ^ 32) (ht2 : t2 < 2 ^ 32) (hs1 : s1 < 2 ^ 40) (hs2 : s2 < 2 ^ 40)
    (h : t1 < t2 ∨ (t1 = t2 ∧ s1 < s2)) :
    XLogFileName t1 s1 < XLogFileName t2 s2 := by
  have hd1 : s1 / 256 < 2 ^ 32 := by omega
  have hd2 : s2 / 256 < 2 ^ 32 := by omega
  have hm1 : s1 % 256 < 2 ^ 32 := by omega
  have hm2 : s2 % 256 < 2 ^ 32 := by omega
  have hsx : XLogSegmentsPerXLogId = 256 := by norm_num [XLogSegmentsPerXLogId, XLogSegSize]
  unfold XLogFileName hex8Chars
  rw [hsx, Nat.mod_eq_of_lt ht1, Nat.mod_eq_of_lt ht2, Nat.mod_eq_of_lt hd1,
    Nat.mod_eq_of_lt hd2, Nat.mod_eq_of_lt hm1, Nat.mod_eq_of_lt hm2]
  apply stringMk_lt
  rw [List.append_assoc, List.append_assoc]
  rcases h with ht | ⟨rfl, hs⟩
  · exact lexChars_append_left _ _ (hexDigits_lt 8 t1 t2 ht ht2)
      (by rw [hexDigits_length, hexDigits_length])
  · apply lexChars_append_right
    rcases Nat.lt_or_ge (s1 / 256) (s2 / 256) with hq | hq
    · exact lexChars_append_left _ _ (hexDigits_lt 8 _ _ hq hd2)
        (by rw [hexDigits_length, hexDigits_length])
    · have hq2 : s1 / 256 = s2 / 256 :=
        Nat.le_antisymm (Nat.div_le_div_right (Nat.le_of_lt hs)) hq
      have e1 := Nat.div_add_mod s1 256
      have e2 := Nat.div_add_mod s2 256
      have hr : s1 % 256 < s2 % 256 := by
        rw [hq2] at e1
        have : 256 * (s2 / 256) + s1 % 256 < 256 * (s2 / 256) + s2 % 256 := by
          rw [e1, e2]; exact hs
        exact Nat.lt_of_add_lt_add_left this
      rw [hq2]
      apply lexChars_append_right
      exact hexDigits_lt 8 _ _ hr (by omega)

theorem XLByteToPrevSeg_lt (x : Nat) : XLByteToPrevSeg x < 2 ^ 40 := by
  unfold XLByteToPrevSeg word64 XLogSegSize
  omega

theorem emitEntry_pairs : ∀ (fuel : Nat) (e : TimeLineHistoryEntry) (c : Nat)
    (l : List (Nat × Nat)) (c' : Nat), emitEntry fuel e c = some (l, c') →
    ∀ p ∈ l, p.1 = e.tli ∧ p.2 < 2 ^ 40 := by
  intro fuel
  induction fuel with
  | zero => intro e c l c' h; exact Option.noConfusion h
  | succ f ih =>
    intro e c l c' h p hp
    rw [emitEntry] at h
    split at h
    · cases hrec : emitEntry f e (alignNext c) with
      | none => rw [hrec] at h; exact Option.noConfusion h
      | some r =>
        rcases r with ⟨l₀, c₀⟩
        rw [hrec] at h
        dsimp only at h
        injection h with h
        rw [Prod.mk.injEq] at h
        rw [← h.1] at hp
        rcases List.mem_cons.mp hp with rfl | hp'
        · exact ⟨rfl, XLByteToPrevSeg_lt c⟩
        · exact ih e (alignNext c) l₀ c₀ hrec p hp'
    · injection h with h
      rw [Prod.mk.injEq] at h
      rw [← h.1] at hp
      simp at hp

theorem emitAll_pairs : ∀ (es : List TimeLineHistoryEntry) (fuel c : Nat)
    (l : List (Nat × Nat)) (c' : Nat), emitAll fuel es c = some (l, c') →
    ∀ p ∈ l, (∃ e ∈ es, p.1 = e.tli) ∧ p.2 < 2 ^ 40 := by
  intro es
  induction es with
  | nil =>
    intro fuel c l c' h p hp
    rw [emitAll] at h
    injection h with h
    rw [Prod.mk.injEq] at h
    rw [← h.1] at hp
    simp at hp
  | cons e₀ es ih =>
    intro fuel c l c' h p hp
    rw [emitAll] at h
    cases h₀ : emitEntry fuel e₀ c with
    | none => rw [h₀] at h; exact Option.noConfusion h
    | some r =>
      rcases r with ⟨l₀, c₀⟩
      rw [h₀] at h
      dsimp only at h
      cases h₁ : emitAll fuel es c₀ with
      | none => rw [h₁] at h; exact Option.noConfusion h
      | some r₂ =>
        rcases r₂ with ⟨l₂, c₂⟩
        rw [h₁] at h
        injection h with h
        rw [Prod.mk.injEq] at h
        rw [← h.1] at hp
        rcases List.mem_append.mp hp with hp' | hp'
        · have := emitEntry_pairs fuel e₀ c l₀ c₀ h₀ p hp'
          exact ⟨⟨e₀, List.mem_cons_self _ _, this.1⟩, this.2⟩
        · have := ih fuel c₀ l₂ c₂ h₁ p hp'
          exact ⟨⟨this.1.choose, List.mem_cons_of_mem _ this.1.choose_spec.1,
            this.1.choose_spec.2⟩, this.2⟩

/-- Structure of a successful validation: the parsed entries followed by the
synthetic target entry, whose `begin` is the matched entry's `end`. -/
theorem validateAndExtend_ok_shape (origin_tli origin_lsn target_tli target_lsn : Nat)
    (buffer : List Char) (ext : List TimeLineHistoryEntry)
    (h : validateAndExtend origin_tli origin_lsn target_tli target_lsn buffer = .ok ext) :
    ∃ entries matched last,
      parseTimeLineHistory buffer = .ok entries ∧
      entries.getLast? = some last ∧ last.tli < target_tli ∧ last.end_ ≤ target_lsn ∧
      matched ∈ entries ∧
      ext = entries ++ [⟨target_tli, matched.end_, target_lsn⟩] ∧
      origin_lsn ≤ target_lsn := by
  unfold validateAndExtend at h
  split at h
  · exact Except.noConfusion h
  · split at h
    · exact Except.noConfusion h
    · rename_i hle htle
      cases hp : parseTimeLineHistory buffer with
      | error e => rw [hp] at h; exact Except.noConfusion h
      | ok entries =>
        rw [hp] at h
        dsimp only at h
        cases hl : entries.getLast? with
        | none => rw [hl] at h; exact Except.noConfusion h
        | some last =>
          rw [hl] at h
          dsimp only at h
          split at h
          · exact Except.noConfusion h
          · split at h
            · exact Except.noConfusion h
            · rename_i hlt hend
              cases hm : entries.find? (fun e =>
                  decide (e.begin_ ≤ origin_lsn) && decide (e.end_ ≥ origin_lsn) &&
                  decide (e.tli = origin_tli)) with
              | none => rw [hm] at h; exact Except.noConfusion h
              | some matched =>
                rw [hm] at h
                dsimp only at h
                injection h with h
                exact ⟨entries, matched, last, rfl, hl, by omega, by omega,
                  List.mem_of_find?_eq_some hm, h.symm, by omega⟩

theorem tli_le_getLast : ∀ (es : List TimeLineHistoryEntry) (last : TimeLineHistoryEntry),
    List.Chain' (fun a b => a.tli < b.tli) es → es.getLast? = some last →
    ∀ e ∈ es, e.tli ≤ last.tli := by
  intro es
  induction es with
  | nil => intro last _ hl e he; simp at he
  | cons e₀ tl ih =>
    intro last hch hl e he
    cases tl with
    | nil =>
      simp at hl he
      subst hl
      subst he
      exact Nat.le_refl _
    | cons e₁ tl₂ =>
      rw [List.getLast?_cons_cons] at hl
      rw [List.chain'_cons] at hch
      rcases List.mem_cons.mp he with rfl | he'
      · have h1 := ih last hch.2 hl e₁ (List.mem_cons_self _ _)
        have h2 := hch.1
        omega
      · exact ih last hch.2 hl e he'

/-- Claim C8 (counterexample): the identifier the code emits for
`(timeline 2, segment 256)` splits the segment number as
`(segno / 256, segno % 256)`, not as its high and low 32 bits: the run
produces `"000000020000000100000000"`, while the spec's
`format_identifier(2, 256)` is `"000000020000000000000100"`. -/
theorem C8_counterexample :
    buildWalSegmentList 4 1 0x100000000 2 0x100000001 highEntryText =
      some ([(2, 256)], none) ∧
    buildWalSegmentListNames 4 1 0x100000000 2 0x100000001 highEntryText =
      some (["000000020000000100000000"], none) ∧
    specFormatIdentifier 2 256 = "000000020000000000000100" ∧
    XLogFileName 2 256 ≠ specFormatIdentifier 2 256 := by
  refine ⟨by decide, by decide, by decide, by decide⟩

/-- Claim C8 (amended): every emitted pair has a 32-bit timeline and a
segment number below `2^40`, and on that domain the code's identifier —
8 hex digits each of `timeline`, `segno / (2^32 / seg_size)` and
`segno % (2^32 / seg_size)` — is order-preserving: lexicographic order of
identifiers coincides with `(timeline, segno)` order. -/
theorem C8_theorem :
    (∀ fuel origin_tli origin_lsn target_tli target_lsn buffer out,
      target_tli < 2 ^ 32 →
      buildWalSegmentList fuel origin_tli origin_lsn target_tli target_lsn buffer =
        some (out, none) →
      ∀ p ∈ out, p.1 < 2 ^ 32 ∧ p.2 < 2 ^ 40) ∧
    (∀ t1 s1 t2 s2, t1 < 2 ^ 32 → t2 < 2 ^ 32 → s1 < 2 ^ 40 → s2 < 2 ^ 40 →
      (XLogFileName t1 s1 < XLogFileName t2 s2 ↔ (t1 < t2 ∨ (t1 = t2 ∧ s1 < s2)))) := by
  constructor
  · intro fuel origin_tli origin_lsn target_tli target_lsn buffer out htb h p hp
    unfold buildWalSegmentList at h
    cases hv : validateAndExtend origin_tli origin_lsn target_tli target_lsn buffer with
    | error e => simp only [hv] at h; simp at h
    | ok ext =>
      simp only [hv] at h
      cases he : emitAll fuel ext (alignNext origin_lsn) with
      | none => simp only [he] at h; exact Option.noConfusion h
      | some r =>
        rcases r with ⟨l, c⟩
        simp only [he] at h
        simp at h
        rw [← h] at hp
        obtain ⟨entries, matched, last, hpar, hl, hlast, hend, hmem, hext, hol⟩ :=
          validateAndExtend_ok_shape _ _ _ _ _ _ hv
        rcases List.mem_append.mp hp with hp' | hp'
        · have hb := emitAll_pairs ext fuel (alignNext origin_lsn) l c he p hp'
          obtain ⟨⟨e, hee, het⟩, hs⟩ := hb
          refine ⟨?_, hs⟩
          rw [hext] at hee
          rcases List.mem_append.mp hee with he' | he'
          · obtain ⟨inv1, _, _, _, _⟩ := parseLines_invariant _ 0 0 entries hpar
            rw [het]
            exact (inv1 e he').2
          · simp at he'
            rw [het, he']
            exact htb
        · simp at hp'
          rw [hp']
          exact ⟨htb, XLByteToPrevSeg_lt _⟩
  · intro t1 s1 t2 s2 ht1 ht2 hs1 hs2
    constructor
    · intro hlt
      by_contra hc
      push_neg at hc
      have htri : t2 < t1 ∨ (t2 = t1 ∧ s2 < s1) ∨ (t1 = t2 ∧ s1 = s2) := by
        have hc1 := hc.1
        by_cases he : t1 = t2
        · have hc2 := hc.2 he
          by_cases hse : s1 = s2
          · exact Or.inr (Or.inr ⟨he, hse⟩)
          · exact Or.inr (Or.inl ⟨he.symm, by omega⟩)
        · exact Or.inl (by omega)
      rcases htri with h | ⟨he, hs⟩ | ⟨he, hs⟩
      · exact absurd hlt (lt_asymm (XLogFileName_lt_of_lex t2 s2 t1 s1 ht2 ht1 hs2 hs1 (Or.inl h)))
      · exact absurd hlt (lt_asymm (XLogFileName_lt_of_lex t2 s2 t1 s1 ht2 ht1 hs2 hs1 (Or.inr ⟨he, hs⟩)))
      · rw [he, hs] at hlt
        exact absurd hlt (lt_irrefl _)
    · exact XLogFileName_lt_of_lex t1 s1 t2 s2 ht1 ht2 hs1 hs2

theorem C8_witness :
    XLogFileName 1 5 < XLogFileName 2 3 ∧
    (∀ p ∈ ([(1, 1), (2, 2), (2, 3)] : List (Nat × Nat)), p.1 < 2 ^ 32 ∧ p.2 < 2 ^ 40) :=
  ⟨(C8_theorem.2 1 5 2 3 (by norm_num) (by norm_num) (by norm_num) (by norm_num)).mpr
      (Or.inl (by norm_num)),
   C8_theorem.1 32 1 0x1000000 2 0x4000000 oneEntryText [(1, 1), (2, 2), (2, 3)]
      (by norm_num) (by decide)⟩

/-! ### Claim C5: cursor arithmetic and the enumeration loop -/

theorem alignNext_eq (c : Nat) (h1 : c % XLogSegSize = 0) (h2 : c + XLogSegSize < word64) :
    alignNext c = c + XLogSegSize := by
  unfold alignNext XLogSegSize word64 at *
  omega

theorem alignNext_wrap (c : Nat) (h1 : c % XLogSegSize = 0) (h2 : c + XLogSegSize = word64) :
    alignNext c = 0 := by
  unfold alignNext XLogSegSize word64 at *
  omega

theorem XLByteToPrevSeg_aligned (c : Nat) (h1 : c % XLogSegSize = 0) (h2 : 0 < c)
    (h3 : c < word64) : XLByteToPrevSeg c = c / XLogSegSize - 1 := by
  unfold XLByteToPrevSeg XLogSegSize word64 at *
  omega

theorem alignNext_basic (lsn : Nat) (h : lsn + XLogSegSize < word64) :
    (alignNext lsn) % XLogSegSize = 0 ∧ 0 < alignNext lsn ∧ alignNext lsn < word64 := by
  unfold alignNext XLogSegSize word64 at *
  omega

theorem emitEntry_stop (fuel : Nat) (e : TimeLineHistoryEntry) (c : Nat)
    (h : ¬(e.begin_ ≤ c ∧ c < e.end_)) (hf : 0 < fuel) :
    emitEntry fuel e c = some ([], c) := by
  cases fuel with
  | zero => omega
  | succ f => rw [emitEntry, if_neg h]

theorem emitEntry_step (fuel : Nat) (e : TimeLineHistoryEntry) (c : Nat)
    (h : e.begin_ ≤ c ∧ c < e.end_) :
    emitEntry (fuel + 1) e c =
      match emitEntry fuel e (alignNext c) with
      | none => none
      | some (l, c') => some ((e.tli, XLByteToPrevSeg c) :: l, c') := by
  rw [emitEntry, if_pos h]

/-- Closed form for a terminating run of the inner `while` loop: starting at
an aligned, positive cursor `c`, it performs `N` iterations and stops at
`(c + N * seg) % 2^64` — covering also the run whose final cursor bump wraps
the 64-bit space to `0`. -/
theorem emitEntry_run (e : TimeLineHistoryEntry) : ∀ (N fuel c : Nat),
    N < fuel →
    c % XLogSegSize = 0 → 0 < c → c < word64 →
    e.begin_ ≤ c → e.end_ ≤ word64 →
    (∀ k, k < N → c + k * XLogSegSize < e.end_) →
    c + N * XLogSegSize ≤ word64 →
    ¬(e.begin_ ≤ (c + N * XLogSegSize) % word64 ∧ (c + N * XLogSegSize) % word64 < e.end_) →
    emitEntry fuel e c =
      some ((List.range N).map (fun k => (e.tli, c / XLogSegSize + k - 1)),
        (c + N * XLogSegSize) % word64) := by
  intro N
  induction N with
  | zero =>
    intro fuel c hfuel h1 h2 h3 h4 h5 h6 h7 h8
    rw [Nat.zero_mul, Nat.add_zero, Nat.mod_eq_of_lt h3] at h8
    rw [emitEntry_stop fuel e c h8 (by omega)]
    rw [Nat.zero_mul, Nat.add_zero, Nat.mod_eq_of_lt h3]
    simp
  | succ N ih =>
    intro fuel c hfuel h1 h2 h3 h4 h5 h6 h7 h8
    have hc_end : c < e.end_ := by
      have hx := h6 0 (Nat.succ_pos N)
      rw [Nat.zero_mul, Nat.add_zero] at hx
      exact hx
    have hsm : (N + 1) * XLogSegSize = N * XLogSegSize + XLogSegSize := Nat.succ_mul N _
    cases fuel with
    | zero => omega
    | succ f =>
      rw [emitEntry_step f e c ⟨h4, hc_end⟩]
      by_cases hw : c + XLogSegSize < word64
      · have ha : alignNext c = c + XLogSegSize := alignNext_eq c h1 hw
        have harg : c + (N + 1) * XLogSegSize = c + XLogSegSize + N * XLogSegSize := by
          rw [hsm]; omega
        rw [harg] at h7 h8
        have hrec := ih f (c + XLogSegSize) (by omega)
          (by rw [Nat.add_mod_right]; exact h1) (by omega) hw
          (by omega) h5
          (fun k hk => by
            have hh := h6 (k + 1) (by omega)
            have hkm : (k + 1) * XLogSegSize = k * XLogSegSize + XLogSegSize := Nat.succ_mul k _
            omega)
          h7 h8
        rw [ha, hrec]
        dsimp only
        rw [harg]
        rw [List.range_succ_eq_map, List.map_cons, List.map_map]
        rw [XLByteToPrevSeg_aligned c h1 h2 h3]
        have hdiv : (c + XLogSegSize) / XLogSegSize = c / XLogSegSize + 1 :=
          Nat.add_div_right c (by norm_num [XLogSegSize])
        have hfun : (fun k => (e.tli, (c + XLogSegSize) / XLogSegSize + k - 1)) =
            ((fun k => (e.tli, c / XLogSegSize + k - 1)) ∘ Nat.succ) := by
          funext k
          rw [Function.comp_apply, hdiv]
          exact congrArg (fun x => (e.tli, x)) (by omega)
        rw [hfun]
        norm_num
      · have hw2 : c + XLogSegSize = word64 := by
          rw [hsm] at h7
          omega
        have hN0 : N = 0 := by
          by_contra hN
          have h1x := h6 1 (by omega)
          rw [Nat.one_mul] at h1x
          omega
        subst hN0
        have ha : alignNext c = 0 := alignNext_wrap c h1 hw2
        have hmod0 : (c + 1 * XLogSegSize) % word64 = 0 := by
          rw [Nat.one_mul, hw2, Nat.mod_self]
        rw [hmod0] at h8
        rw [ha, emitEntry_stop f e 0 h8 (by omega)]
        dsimp only
        rw [hmod0]
        rw [XLByteToPrevSeg_aligned c h1 h2 h3]
        simp [List.range_succ]

theorem XLByteToPrevSeg_eq_sub (x : Nat) (h2 : 0 < x) (h3 : x < word64) :
    XLByteToPrevSeg x = (x - 1) / XLogSegSize := by
  unfold XLByteToPrevSeg XLogSegSize word64 at *
  omega

/-- Shape of a terminating run of the inner loop when the entry's `end` is
far enough from `2^64` that the cursor cannot wrap inside the run. -/
theorem emitEntry_noWrap_shape (e : TimeLineHistoryEntry) : ∀ (fuel c : Nat)
    (l : List (Nat × Nat)) (c' : Nat),
    c % XLogSegSize = 0 → 0 < c → c < word64 → e.end_ + XLogSegSize ≤ word64 →
    emitEntry fuel e c = some (l, c') →
    ∃ N, l = (List.range N).map (fun k => (e.tli, c / XLogSegSize + k - 1)) ∧
      c' = c + N * XLogSegSize ∧
      (∀ k, k < N → c + k * XLogSegSize < e.end_) ∧
      ¬(e.begin_ ≤ c' ∧ c' < e.end_) ∧
      c' % XLogSegSize = 0 ∧ 0 < c' ∧ c' < word64 ∧ c ≤ c' := by
  intro fuel
  induction fuel with
  | zero => intro c l c' _ _ _ _ h; exact Option.noConfusion h
  | succ f ih =>
    intro c l c' h1 h2 h3 h4 h
    rw [emitEntry] at h
    split at h
    · rename_i hcond
      have hw : c + XLogSegSize < word64 := by
        have hce := hcond.2
        omega
      have ha : alignNext c = c + XLogSegSize := alignNext_eq c h1 hw
      rw [ha] at h
      cases hrec : emitEntry f e (c + XLogSegSize) with
      | none => rw [hrec] at h; exact Option.noConfusion h
      | some r =>
        rcases r with ⟨l₀, c₀⟩
        rw [hrec] at h
        dsimp only at h
        injection h with h
        rw [Prod.mk.injEq] at h
        obtain ⟨hl, hc⟩ := h
        obtain ⟨N, hs1, hs2, hs3, hs4, hs5, hs6, hs7, hs8⟩ :=
          ih (c + XLogSegSize) l₀ c₀ (by rw [Nat.add_mod_right]; exact h1) (by omega) hw h4 hrec
        refine ⟨N + 1, ?_, ?_, ?_, ?_, ?_, ?_, ?_, ?_⟩
        · rw [← hl, hs1]
          rw [List.range_succ_eq_map, List.map_cons, List.map_map]
          rw [XLByteToPrevSeg_aligned c h1 h2 h3]
          have hdiv : (c + XLogSegSize) / XLogSegSize = c / XLogSegSize + 1 :=
            Nat.add_div_right c (by norm_num [XLogSegSize])
          have hfun : (fun k => (e.tli, (c + XLogSegSize) / XLogSegSize + k - 1)) =
              ((fun k => (e.tli, c / XLogSegSize + k - 1)) ∘ Nat.succ) := by
            funext k
            rw [Function.comp_apply, hdiv]
            exact congrArg (fun x => (e.tli, x)) (by omega)
          rw [hfun]
          norm_num
        · rw [← hc, hs2, Nat.succ_mul]
          omega
        · intro k hk
          cases k with
          | zero =>
            rw [Nat.zero_mul, Nat.add_zero]
            exact hcond.2
          | succ k2 =>
            have hh := hs3 k2 (by omega)
            have hkm : (k2 + 1) * XLogSegSize = k2 * XLogSegSize + XLogSegSize :=
              Nat.succ_mul k2 _
            omega
        · rw [← hc]; exact hs4
        · rw [← hc]; exact hs5
        · rw [← hc]; exact hs6
        · rw [← hc]; exact hs7
        · rw [← hc]
          exact Nat.le_trans (Nat.le_add_right _ _) hs8
    · rename_i hcond
      injection h with h
      rw [Prod.mk.injEq] at h
      obtain ⟨hl, hc⟩ := h
      refine ⟨0, ?_, ?_, ?_, ?_, ?_, ?_, ?_, ?_⟩
      · rw [← hl]; simp
      · rw [← hc, Nat.zero_mul, Nat.add_zero]
      · intro k hk; omega
      · rw [← hc]; exact hcond
      · rw [← hc]; exact h1
      · rw [← hc]; exact h2
      · rw [← hc]; exact h3
      · rw [← hc]

theorem emitAll_append : ∀ (es₁ es₂ : List TimeLineHistoryEntry) (fuel c : Nat),
    emitAll fuel (es₁ ++ es₂) c =
      match emitAll fuel es₁ c with
      | none => none
      | some (l₁, c₁) =>
        match emitAll fuel es₂ c₁ with
        | none => none
        | some (l₂, c₂) => some (l₁ ++ l₂, c₂) := by
  intro es₁
  induction es₁ with
  | nil =>
    intro es₂ fuel c
    simp only [List.nil_append, emitAll]
    cases h : emitAll fuel es₂ c with
    | none => rfl
    | some r =>
      rcases r with ⟨l₂, c₂⟩
      simp
  | cons e es ih =>
    intro es₂ fuel c
    rw [List.cons_append, emitAll, emitAll]
    cases he : emitEntry fuel e c with
    | none => rfl
    | some r =>
      rcases r with ⟨l₀, c₀⟩
      dsimp only
      rw [ih es₂ fuel c₀]
      cases h1 : emitAll fuel es c₀ with
      | none => rfl
      | some r1 =>
        rcases r1 with ⟨l₁, c₁⟩
        dsimp only
        cases h2 : emitAll fuel es₂ c₁ with
        | none => rfl
        | some r2 =>
          rcases r2 with ⟨l₂, c₂⟩
          dsimp only
          rw [List.append_assoc]

theorem emitAll_singleton (fuel : Nat) (e : TimeLineHistoryEntry) (c : Nat) :
    emitAll fuel [e] c = emitEntry fuel e c := by
  rw [emitAll]
  cases h : emitEntry fuel e c with
  | none => rfl
  | some r =>
    rcases r with ⟨l, c'⟩
    dsimp only
    rw [emitAll]
    simp

/-- Invariant of the entry loop when no cursor wrap can occur: the emitted
segment numbers are strictly increasing overall, bracketed by the cursor
positions before and after. -/
theorem emitAll_noWrap_shape : ∀ (es : List TimeLineHistoryEntry) (fuel c : Nat)
    (l : List (Nat × Nat)) (c' : Nat),
    (∀ e ∈ es, e.end_ + XLogSegSize ≤ word64) →
    c % XLogSegSize = 0 → 0 < c → c < word64 →
    emitAll fuel es c = some (l, c') →
    List.Pairwise (fun p q => p.2 < q.2) l ∧
    (∀ p ∈ l, c / XLogSegSize ≤ p.2 + 1 ∧ p.2 + 2 ≤ c' / XLogSegSize) ∧
    c ≤ c' ∧ c' % XLogSegSize = 0 ∧ 0 < c' ∧ c' < word64 := by
  intro es
  induction es with
  | nil =>
    intro fuel c l c' hb h1 h2 h3 h
    rw [emitAll] at h
    injection h with h
    rw [Prod.mk.injEq] at h
    obtain ⟨hl, hc⟩ := h
    subst hc
    refine ⟨by rw [← hl]; exact List.Pairwise.nil, by rw [← hl]; simp,
      Nat.le_refl _, h1, h2, h3⟩
  | cons e es ih =>
    intro fuel c l c' hb h1 h2 h3 h
    rw [emitAll] at h
    cases he : emitEntry fuel e c with
    | none => rw [he] at h; exact Option.noConfusion h
    | some r =>
      rcases r with ⟨l₀, c₀⟩
      rw [he] at h
      dsimp only at h
      cases ha : emitAll fuel es c₀ with
      | none => rw [ha] at h; exact Option.noConfusion h
      | some r2 =>
        rcases r2 with ⟨l₂, c₂⟩
        rw [ha] at h
        injection h with h
        rw [Prod.mk.injEq] at h
        obtain ⟨hl, hc⟩ := h
        have hbe : e.end_ + XLogSegSize ≤ word64 := hb e (List.mem_cons_self _ _)
        obtain ⟨N, hs1, hs2, hs3, hs4, hs5, hs6, hs7, hs8⟩ :=
          emitEntry_noWrap_shape e fuel c l₀ c₀ h1 h2 h3 hbe he
        obtain ⟨ih1, ih2, ih3, ih4, ih5, ih6⟩ :=
          ih fuel c₀ l₂ c₂ (fun x hx => hb x (List.mem_cons_of_mem _ hx)) hs5 hs6 hs7 ha
        subst hc
        have hSpos : 0 < XLogSegSize := by norm_num [XLogSegSize]
        have hcge : XLogSegSize ≤ c := Nat.le_of_dvd h2 (Nat.dvd_of_mod_eq_zero h1)
        have hdiv1 : 1 ≤ c / XLogSegSize := by
          rw [Nat.le_div_iff_mul_le hSpos]
          simpa using hcge
        have hc0div : c₀ / XLogSegSize = c / XLogSegSize + N := by
          rw [hs2, Nat.add_mul_div_right _ _ hSpos]
        have hl₀ : ∀ p ∈ l₀, c / XLogSegSize ≤ p.2 + 1 ∧ p.2 + 2 ≤ c₀ / XLogSegSize := by
          intro p hp
          rw [hs1] at hp
          obtain ⟨k, hk, rfl⟩ := List.mem_map.mp hp
          rw [List.mem_range] at hk
          dsimp only
          rw [hc0div]
          omega
        have hpair₀ : List.Pairwise (fun p q => p.2 < q.2) l₀ := by
          rw [hs1, List.pairwise_map]
          refine List.Pairwise.imp ?_ (List.pairwise_lt_range N)
          intro a b hab
          dsimp only
          omega
        rw [← hl]
        refine ⟨?_, ?_, Nat.le_trans hs8 ih3, ih4, ih5, ih6⟩
        · rw [List.pairwise_append]
          refine ⟨hpair₀, ih1, ?_⟩
          intro p hp q hq
          have b1 := (hl₀ p hp).2
          have b2 := (ih2 q hq).1
          omega
        · intro p hp
          rcases List.mem_append.mp hp with hp' | hp'
          · have hbp := hl₀ p hp'
            have hdm : c₀ / XLogSegSize ≤ c₂ / XLogSegSize := Nat.div_le_div_right ih3
            omega
          · have hbp := ih2 p hp'
            have hdm : c / XLogSegSize ≤ c₀ / XLogSegSize := Nat.div_le_div_right hs8
            omega

/-- Claim C5 (amended): on every successful call in which the 64-bit cursor
cannot wrap — all (extended) entry ends and the aligned origin cursor stay
at least one segment below `2^64` — the returned sequence is non-empty and
the per-timeline re-derived segment numbers are non-decreasing in emission
order. -/
theorem C5_theorem (fuel origin_tli origin_lsn target_tli target_lsn : Nat)
    (buffer : List Char) (ext : List TimeLineHistoryEntry) (out : List (Nat × Nat))
    (hv : validateAndExtend origin_tli origin_lsn target_tli target_lsn buffer = .ok ext)
    (hbound : ∀ e ∈ ext, e.end_ + XLogSegSize ≤ word64)
    (holsn : origin_lsn + XLogSegSize < word64)
    (h : buildWalSegmentList fuel origin_tli origin_lsn target_tli target_lsn buffer =
      some (out, none)) :
    out ≠ [] ∧ perTimelineMonotone out := by
  unfold buildWalSegmentList at h
  simp only [hv] at h
  cases he : emitAll fuel ext (alignNext origin_lsn) with
  | none => simp only [he] at h; exact Option.noConfusion h
  | some r =>
    rcases r with ⟨l, cend⟩
    simp only [he] at h
    simp at h
    obtain ⟨entries, matched, last, hpar, hl, hlast, hend, hmem, hext, hol⟩ :=
      validateAndExtend_ok_shape _ _ _ _ _ _ hv
    obtain ⟨hc1, hc2, hc3⟩ := alignNext_basic origin_lsn holsn
    rw [hext, emitAll_append] at he
    cases hA : emitAll fuel entries (alignNext origin_lsn) with
    | none => rw [hA] at he; exact Option.noConfusion he
    | some rA =>
      rcases rA with ⟨lA, c₁⟩
      rw [hA] at he
      dsimp only at he
      cases hB : emitAll fuel [⟨target_tli, matched.end_, target_lsn⟩] c₁ with
      | none => rw [hB] at he; exact Option.noConfusion he
      | some rB =>
        rcases rB with ⟨lB, c₂⟩
        rw [hB] at he
        injection he with he
        rw [Prod.mk.injEq] at he
        obtain ⟨hle, hce⟩ := he
        rw [emitAll_singleton] at hB
        have hbA : ∀ x ∈ entries, x.end_ + XLogSegSize ≤ word64 := by
          intro x hx
          exact hbound x (by rw [hext]; exact List.mem_append.mpr (Or.inl hx))
        have hbS : target_lsn + XLogSegSize ≤ word64 := by
          have hx := hbound ⟨target_tli, matched.end_, target_lsn⟩
            (by rw [hext]; exact List.mem_append.mpr (Or.inr (List.mem_singleton.mpr rfl)))
          exact hx
        obtain ⟨pwA, bodA, hc1le, hm1, hp1, hw1⟩ :=
          emitAll_noWrap_shape entries fuel _ lA c₁ hbA hc1 hc2 hc3 hA
        obtain ⟨N, hq1, hq2, hq3, hq4, hq5, hq6, hq7, hq8⟩ :=
          emitEntry_noWrap_shape _ fuel c₁ lB c₂ hm1 hp1 hw1 hbS hB
        have htliA : ∀ p ∈ lA, p.1 < target_tli := by
          intro p hp
          obtain ⟨⟨x, hx, hpx⟩, _⟩ := emitAll_pairs entries fuel _ lA c₁ hA p hp
          obtain ⟨inv1, inv2, _, _, _⟩ := parseLines_invariant _ 0 0 entries hpar
          have hxle := tli_le_getLast entries last inv2 hl x hx
          omega
        have htliB : ∀ p ∈ lB, p.1 = target_tli := by
          intro p hp
          exact (emitEntry_pairs fuel _ c₁ lB c₂ hB p hp).1
        have hSpos : 0 < XLogSegSize := by norm_num [XLogSegSize]
        have hsegB : ∀ p ∈ lB, p.2 ≤ XLByteToPrevSeg target_lsn := by
          intro p hp
          rw [hq1] at hp
          obtain ⟨k, hk, rfl⟩ := List.mem_map.mp hp
          rw [List.mem_range] at hk
          have hklt := hq3 k hk
          dsimp only at hklt
          have hge : XLogSegSize ≤ c₁ := Nat.le_of_dvd hp1 (Nat.dvd_of_mod_eq_zero hm1)
          have hdiv1 : 1 ≤ c₁ / XLogSegSize := by
            rw [Nat.le_div_iff_mul_le hSpos]
            simpa using hge
          have htpos : 0 < target_lsn := by omega
          have htlt : target_lsn < word64 := by omega
          rw [XLByteToPrevSeg_eq_sub _ htpos htlt]
          have hdm : (c₁ + k * XLogSegSize) / XLogSegSize ≤ (target_lsn - 1) / XLogSegSize :=
            Nat.div_le_div_right (by omega)
          rw [Nat.add_mul_div_right _ _ hSpos] at hdm
          dsimp only
          omega
        rw [← h, ← hle]
        constructor
        · simp
        · intro t
          simp only [List.append_assoc, List.filter_append, List.map_append]
          by_cases ht : t = target_tli
          · subst ht
            have hfA : lA.filter (fun p => p.1 == t) = [] := by
              rw [List.filter_eq_nil_iff]
              intro p hp
              have hlt := htliA p hp
              simp only [beq_iff_eq]
              omega
            have hfB : lB.filter (fun p => p.1 == t) = lB := by
              rw [List.filter_eq_self]
              intro p hp
              simp [htliB p hp]
            have hfF : ([(t, XLByteToPrevSeg target_lsn)] : List (Nat × Nat)).filter
                (fun p => p.1 == t) = [(t, XLByteToPrevSeg target_lsn)] := by
              simp
            rw [hfA, hfB, hfF]
            simp only [List.map_nil, List.nil_append]
            refine List.chain'_append.mpr ⟨?_, List.chain'_singleton _, ?_⟩
            · rw [hq1, List.map_map]
              apply List.Pairwise.chain'
              rw [List.pairwise_map]
              refine List.Pairwise.imp ?_ (List.pairwise_lt_range N)
              intro a b hab
              simp only [Function.comp_apply]
              omega
            · intro x hx y hy
              simp at hy
              subst hy
              have hxmem : x ∈ lB.map Prod.snd := List.mem_of_mem_getLast? hx
              obtain ⟨p, hp, rfl⟩ := List.mem_map.mp hxmem
              exact hsegB p hp
          · have hfB : lB.filter (fun p => p.1 == t) = [] := by
              rw [List.filter_eq_nil_iff]
              intro p hp
              have hpe := htliB p hp
              simp only [beq_iff_eq]
              omega
            have hfF : ([(target_tli, XLByteToPrevSeg target_lsn)] : List (Nat × Nat)).filter
                (fun p => p.1 == t) = [] := by
              rw [List.filter_eq_nil_iff]
              intro p hp
              rw [List.mem_singleton] at hp
              subst hp
              simp only [beq_iff_eq]
              omega
            rw [hfB, hfF]
            simp only [List.map_nil, List.append_nil]
            apply List.Pairwise.chain'
            rw [List.pairwise_map]
            refine List.Pairwise.imp ?_ (List.Pairwise.filter _ pwA)
            intro a b hab
            exact Nat.le_of_lt hab

theorem emitAll_nil (fuel c : Nat) : emitAll fuel [] c = some ([], c) := by
  rw [emitAll]

theorem emitAll_cons (fuel : Nat) (e : TimeLineHistoryEntry) (es : List TimeLineHistoryEntry)
    (c : Nat) (l₀ : List (Nat × Nat)) (c₀ : Nat) (l₂ : List (Nat × Nat)) (c₂ : Nat)
    (h₁ : emitEntry fuel e c = some (l₀, c₀))
    (h₂ : emitAll fuel es c₀ = some (l₂, c₂)) :
    emitAll fuel (e :: es) c = some (l₀ ++ l₂, c₂) := by
  rw [emitAll, h₁]
  dsimp only
  rw [h₂]

theorem buildWalSegmentList_ok (fuel origin_tli origin_lsn target_tli target_lsn : Nat)
    (buffer : List Char) (ext : List TimeLineHistoryEntry) (l : List (Nat × Nat)) (c : Nat)
    (hv : validateAndExtend origin_tli origin_lsn target_tli target_lsn buffer = .ok ext)
    (he : emitAll fuel ext (alignNext origin_lsn) = some (l, c)) :
    buildWalSegmentList fuel origin_tli origin_lsn target_tli target_lsn buffer =
      some (l ++ [(target_tli, XLByteToPrevSeg target_lsn)], none) := by
  unfold buildWalSegmentList
  rw [hv]
  dsimp only
  rw [he]

theorem not_perTimelineMonotone_of (l pre : List (Nat × Nat)) (t : Nat)
    (hf : l.filter (fun p => p.1 == t) = pre)
    (h : ¬ List.Chain' (· ≤ ·) (pre.map Prod.snd)) :
    ¬ perTimelineMonotone l := by
  intro hm
  exact h (hf ▸ hm t)

/-- A syntactically valid history whose third entry extends to `2^64 - 1`:
enumerating it makes the 64-bit cursor wrap around. -/
def wrapText : List Char := ("1\t0/0\n2\t0/100\n3\tFFFFFFFF/FFFFFFFF\n4\t0/100\n").data

/-- The rows `build_wal_segment_list(1, 0/0, 5, 0/2000000, wrapText)` emits:
timeline-3 segments `0 .. 2^40 - 2`, then — after the cursor wraps to `0` —
timeline-5 segments `2^40 - 1`, `0`, `1`: decreasing within timeline 5. -/
def wrapOut : List (Nat × Nat) :=
  ((List.range (2 ^ 40 - 1)).map (fun k => (3, k))) ++ [(5, 2 ^ 40 - 1), (5, 0), (5, 1)]

/-- Claim C5 (counterexample): a validated input on which the call succeeds
(after roughly `2^40` loop iterations) yet emits, within timeline 5, the
segment numbers `2^40 - 1, 0, 1` — not non-decreasing.  The 64-bit cursor
wraps past `2^64` inside the third entry and restarts at zero. -/
theorem C5_counterexample :
    buildWalSegmentList (2 ^ 40) 1 0 5 0x2000000 wrapText = some (wrapOut, none) ∧
    ¬ perTimelineMonotone wrapOut := by
  constructor
  · have hval : validateAndExtend 1 0 5 0x2000000 wrapText =
        .ok [⟨1, 0, 0⟩, ⟨2, 0, 0x100⟩, ⟨3, 0x100, 0xFFFFFFFFFFFFFFFF⟩,
             ⟨4, 0xFFFFFFFFFFFFFFFF, 0x100⟩, ⟨5, 0, 0x2000000⟩] := by decide
    have h3run : emitEntry (2 ^ 40) ⟨3, 0x100, 0xFFFFFFFFFFFFFFFF⟩ 0x1000000 =
        some ((List.range (2 ^ 40 - 1)).map (fun k => (3, k)), 0) := by
      rw [emitEntry_run ⟨3, 0x100, 0xFFFFFFFFFFFFFFFF⟩ (2 ^ 40 - 1) (2 ^ 40) 0x1000000
        (by norm_num) (by decide) (by norm_num) (by decide) (by decide) (by decide)
        (fun k hk => by
          have hS : XLogSegSize = 16777216 := rfl
          dsimp only
          rw [hS]
          omega)
        (by decide) (by decide)]
      dsimp only
      have hfe : (fun k => ((3 : Nat), (0x1000000 : Nat) / XLogSegSize + k - 1)) =
          (fun k : Nat => ((3 : Nat), k)) := by
        funext k
        have hdq : (0x1000000 : Nat) / XLogSegSize = 1 := by decide
        rw [hdq]
        exact congrArg (fun x => ((3 : Nat), x)) (by omega)
      rw [hfe]
      have hcur : ((0x1000000 : Nat) + (2 ^ 40 - 1) * XLogSegSize) % word64 = 0 := by decide
      rw [hcur]
    have hs2 : emitEntry (2 ^ 40 - 1) ⟨5, 0, 0x2000000⟩ 0x1000000 =
        some ([(5, 0)], 0x2000000) := by
      show emitEntry ((2 ^ 40 - 2) + 1) ⟨5, 0, 0x2000000⟩ 0x1000000 =
        some ([(5, 0)], 0x2000000)
      rw [emitEntry_step (2 ^ 40 - 2) ⟨5, 0, 0x2000000⟩ 0x1000000 (by decide)]
      have ha2 : alignNext 0x1000000 = 0x2000000 := by decide
      rw [ha2]
      rw [emitEntry_stop (2 ^ 40 - 2) ⟨5, 0, 0x2000000⟩ 0x2000000 (by decide) (by norm_num)]
      dsimp only
      have hp2 : XLByteToPrevSeg 0x1000000 = 0 := by decide
      rw [hp2]
    have hsynrun : emitEntry (2 ^ 40) ⟨5, 0, 0x2000000⟩ 0 =
        some ([(5, 2 ^ 40 - 1), (5, 0)], 0x2000000) := by
      show emitEntry ((2 ^ 40 - 1) + 1) ⟨5, 0, 0x2000000⟩ 0 =
        some ([(5, 2 ^ 40 - 1), (5, 0)], 0x2000000)
      rw [emitEntry_step (2 ^ 40 - 1) ⟨5, 0, 0x2000000⟩ 0 (by decide)]
      have ha1 : alignNext 0 = 0x1000000 := by decide
      rw [ha1, hs2]
      dsimp only
      have hp1 : XLByteToPrevSeg 0 = 2 ^ 40 - 1 := by decide
      rw [hp1]
    have t5 : emitAll (2 ^ 40) [] 0x2000000 = some ([], 0x2000000) := emitAll_nil _ _
    have t4 : emitAll (2 ^ 40) [⟨5, 0, 0x2000000⟩] 0 =
        some ([(5, 2 ^ 40 - 1), (5, 0)] ++ [], 0x2000000) :=
      emitAll_cons _ _ _ _ _ _ _ _ hsynrun t5
    have t3 : emitAll (2 ^ 40) [⟨4, 0xFFFFFFFFFFFFFFFF, 0x100⟩, ⟨5, 0, 0x2000000⟩] 0 =
        some ([] ++ ([(5, 2 ^ 40 - 1), (5, 0)] ++ []), 0x2000000) :=
      emitAll_cons _ _ _ _ _ _ _ _
        (emitEntry_stop (2 ^ 40) ⟨4, 0xFFFFFFFFFFFFFFFF, 0x100⟩ 0 (by decide) (by norm_num)) t4
    have t2 : emitAll (2 ^ 40) [⟨3, 0x100, 0xFFFFFFFFFFFFFFFF⟩,
        ⟨4, 0xFFFFFFFFFFFFFFFF, 0x100⟩, ⟨5, 0, 0x2000000⟩] 0x1000000 =
        some ((List.range (2 ^ 40 - 1)).map (fun k => (3, k)) ++
          ([] ++ ([(5, 2 ^ 40 - 1), (5, 0)] ++ [])), 0x2000000) :=
      emitAll_cons _ _ _ _ _ _ _ _ h3run t3
    have t1 : emitAll (2 ^ 40) [⟨2, 0, 0x100⟩, ⟨3, 0x100, 0xFFFFFFFFFFFFFFFF⟩,
        ⟨4, 0xFFFFFFFFFFFFFFFF, 0x100⟩, ⟨5, 0, 0x2000000⟩] 0x1000000 =
        some ([] ++ ((List.range (2 ^ 40 - 1)).map (fun k => (3, k)) ++
          ([] ++ ([(5, 2 ^ 40 - 1), (5, 0)] ++ []))), 0x2000000) :=
      emitAll_cons _ _ _ _ _ _ _ _
        (emitEntry_stop (2 ^ 40) ⟨2, 0, 0x100⟩ 0x1000000 (by decide) (by norm_num)) t2
    have t0 : emitAll (2 ^ 40) [⟨1, 0, 0⟩, ⟨2, 0, 0x100⟩, ⟨3, 0x100, 0xFFFFFFFFFFFFFFFF⟩,
        ⟨4, 0xFFFFFFFFFFFFFFFF, 0x100⟩, ⟨5, 0, 0x2000000⟩] (alignNext 0) =
        some ([] ++ ([] ++ ((List.range (2 ^ 40 - 1)).map (fun k => (3, k)) ++
          ([] ++ ([(5, 2 ^ 40 - 1), (5, 0)] ++ [])))), 0x2000000) := by
      have hc0 : alignNext 0 = 0x1000000 := by decide
      rw [hc0]
      exact emitAll_cons _ _ _ _ _ _ _ _
        (emitEntry_stop (2 ^ 40) ⟨1, 0, 0⟩ 0x1000000 (by decide) (by norm_num)) t1
    rw [buildWalSegmentList_ok (2 ^ 40) 1 0 5 0x2000000 wrapText _ _ 0x2000000 hval t0]
    have hpf : XLByteToPrevSeg 0x2000000 = 1 := by decide
    rw [hpf]
    unfold wrapOut
    rw [List.append_nil]
    rw [List.nil_append]
    rw [List.nil_append]
    rw [List.nil_append]
    rw [List.append_assoc]
    rw [List.cons_append]
    rw [List.cons_append]
    rw [List.nil_append]
  · refine not_perTimelineMonotone_of wrapOut [(5, 2 ^ 40 - 1), (5, 0), (5, 1)] 5 ?_ (by
      intro hc
      simp only [List.map_cons, List.map_nil, List.chain'_cons] at hc
      exact absurd hc.1 (by decide))
    unfold wrapOut
    rw [List.filter_append]
    have hA : (((List.range (2 ^ 40 - 1)).map (fun k => ((3 : Nat), k))).filter
        (fun p => p.1 == 5)) = [] := by
      rw [List.filter_eq_nil_iff]
      intro p hp
      obtain ⟨k, _, rfl⟩ := List.mem_map.mp hp
      simp
    rw [hA, List.nil_append]
    decide

theorem C5_witness :
    ([(1, 0), (1, 1), (2, 2), (2, 3), (3, 4)] : List (Nat × Nat)) ≠ [] ∧
    perTimelineMonotone [(1, 0), (1, 1), (2, 2), (2, 3), (3, 4)] :=
  C5_theorem 32 1 0 3 0x5000000 ex2Text
    [⟨1, 0, 0x3000000⟩, ⟨2, 0x3000000, 0x5000000⟩, ⟨3, 0x3000000, 0x5000000⟩]
    [(1, 0), (1, 1), (2, 2), (2, 3), (3, 4)]
    (by decide) (by decide) (by decide) (by decide)

end WalUtils
